import Mathlib

/-!
Shallow embedding of the concurrency/data-distribution core of the
echo-ai-assistant repository:

* `StateService` (src/deployments/pi1-brain/app/services/state_service.py):
  merge-patch state store, bounded history ring, listener registry, broadcast.
* `SpeechService` (src/app/services/speech_service.py): bounded speech queue,
  worker loop, shutdown protocol.
* `CameraStream` (src/app/services/camera_service.py): single-slot latest-frame
  cache.
* SSE handler (src/app/blueprints/stream.py): listener registration followed by
  a history snapshot.

Python dicts are modelled as insertion-ordered association lists (Python dicts
preserve insertion order; a replaced key keeps its position, a new key is
appended).  Timestamps are `Nat` values supplied explicitly as a `now`
parameter.  Mutable objects become explicit state records, and thread
interleavings become explicit action lists folded over a step function.
-/

namespace Echo

/-- A primitive JSON-like value (string, number, boolean, null).  Floats are
modelled as naturals: the claims depend only on Python truthiness of `0.0`. -/
inductive Prim where
  | pstr (s : String)
  | pnum (n : Nat)
  | pbool (b : Bool)
  | pnull
deriving DecidableEq, Repr

/-- A one-level nested dictionary of primitives (the `toggles` sub-mapping). -/
abbrev Toggles := List (String × Prim)

/-- A top-level state value: a primitive or a one-level dictionary. -/
inductive Val where
  | prim (p : Prim)
  | vdict (d : Toggles)
deriving DecidableEq, Repr

/-- The robot state: a Python dict mapping string keys to values. -/
abbrev StateMap := List (String × Val)

/-- `d.get(k)` on an insertion-ordered dict: first matching entry. -/
def dictGet (m : List (String × α)) (k : String) : Option α :=
  match m with
  | [] => none
  | (k', v) :: rest => if k' = k then some v else dictGet rest k

/-- `d[k] = v` on an insertion-ordered dict: a present key keeps its position,
an absent key is appended at the end. -/
def dictSet (m : List (String × α)) (k : String) (v : α) : List (String × α) :=
  match m with
  | [] => [(k, v)]
  | (k', v') :: rest => if k' = k then (k, v) :: rest else (k', v') :: dictSet rest k v

/-- `d.update(patch)`: assign every entry of `patch` in order. -/
def dictUpdate (m : List (String × α)) (patch : List (String × α)) : List (String × α) :=
  patch.foldl (fun acc kv => dictSet acc kv.1 kv.2) m

/-- `d.pop(k, None)`'s effect on the dict: drop the entry for `k`. -/
def removeKey (m : List (String × α)) (k : String) : List (String × α) :=
  m.filter (fun kv => kv.1 ≠ k)

/-- Whether the dict has an entry for `k`. -/
def hasKey (m : List (String × α)) (k : String) : Bool :=
  (dictGet m k).isSome

/-- Python truthiness of `state.get(k)`: `None` (absent key), `0`, `""`,
`False`, and `{}` are falsy. -/
def pyFalsy : Option Val → Bool
  | none => true
  | some (.prim (.pstr s)) => s = ""
  | some (.prim (.pnum n)) => n = 0
  | some (.prim (.pbool b)) => !b
  | some (.prim .pnull) => true
  | some (.vdict d) => d.isEmpty

/-- `DEFAULT_STATE` (state_service.py lines 13-17):
`{"state": "idle", "last_talk": 0.0, "toggles": {}}`. -/
def DEFAULT_STATE : StateMap :=
  [("state", .prim (.pstr "idle")),
   ("last_talk", .prim (.pnum 0)),
   ("toggles", .vdict [])]

/-- The merge stage of `StateService.update` (lines 36-42): pop `toggles` from
the patch, `state.update` the remaining keys, and if the popped value is a
dict, `setdefault`/merge it key-by-key into the existing `toggles` dict.
When the current `toggles` value is a non-dict the source raises
(`.update` on a non-dict); that state is unreachable from `DEFAULT_STATE`
because direct `toggles` entries are always popped, so it is mapped to the
empty dict here and theorems assume a dict-valued `toggles`. -/
def mergePatch (st : StateMap) (patch : StateMap) : StateMap :=
  let togglesPatch := dictGet patch "toggles"
  let rest := removeKey patch "toggles"
  let st1 := dictUpdate st rest
  match togglesPatch with
  | some (.vdict tp) =>
      let cur : Toggles :=
        match dictGet st1 "toggles" with
        | some (.vdict d) => d
        | _ => []
      dictSet st1 "toggles" (.vdict (dictUpdate cur tp))
  | _ => st1

/-- The stamp stage of `StateService.update` (lines 43-44): if the merged
state's `state` equals `"talking"` and `state.get("last_talk")` is falsy,
set `last_talk` to the current time. -/
def stampLastTalk (st : StateMap) (now : Nat) : StateMap :=
  if dictGet st "state" = some (.prim (.pstr "talking")) ∧ pyFalsy (dictGet st "last_talk") = true then
    dictSet st "last_talk" (.prim (.pnum now))
  else st

/-- The in-memory state transition of `StateService.update` (lines 34-44):
merge the patch, then apply the `last_talk` stamp. -/
def applyPatch (st : StateMap) (patch : StateMap) (now : Nat) : StateMap :=
  stampLastTalk (mergePatch st patch) now

/-- An event `{"type": ..., "data": ..., "ts": ...}` distributed through the
history ring and the listener queues. -/
structure Event where
  etype : String
  data : StateMap
  ts : Nat
deriving DecidableEq, Repr

/-- Appending to a `deque(maxlen=cap)`: the new element goes to the back and
the oldest elements beyond the capacity are evicted from the front. -/
def ringAppend (cap : Nat) (h : List α) (e : α) : List α :=
  let l := h ++ [e]
  l.drop (l.length - cap)

/-- A per-client subscription: a `queue.Queue(maxsize=cap)` of events, with an
identity for talking about removal. -/
structure Listener where
  lid : Nat
  cap : Nat
  queue : List Event
deriving DecidableEq, Repr

/-- `queue.Queue.full()`: a queue with `maxsize <= 0` is unbounded and never
full; otherwise it is full when it holds at least `maxsize` items. -/
def isFull (l : Listener) : Bool :=
  decide (0 < l.cap ∧ l.cap ≤ l.queue.length)

/-- `listener.put_nowait(event)`: `none` models the `Full` exception. -/
def putNowait (l : Listener) (e : Event) : Option Listener :=
  if isFull l then none else some { l with queue := l.queue ++ [e] }

/-- `StateService._broadcast` (lines 72-80): iterate a copy of the listener
set, `put_nowait` into each queue, collect the listeners whose queue raised
`Full` and remove them afterwards.  Collecting the dead listeners and
discarding them at the end has the net effect of keeping, in order, exactly
the listeners whose `put_nowait` succeeded. -/
def broadcastEvent (ls : List Listener) (e : Event) : List Listener :=
  ls.filterMap (fun l => putNowait l e)

/-- The whole `StateService` object: current state, history deque with its
capacity, and the listener registry. -/
structure BusState where
  state : StateMap
  histCap : Nat
  history : List Event
  listeners : List Listener
deriving DecidableEq, Repr

/-- Outcome of `StateService.update`: the returned snapshot, or the
uncaught exception raised by `self._persist()`. -/
inductive UpdateResult where
  | ok (snapshot : StateMap)
  | persistRaised
deriving DecidableEq, Repr

/-- `StateService.update` (lines 34-50), with the success of the disk write
passed in as `persistOk` (the disk is external).  The merged state is
assigned to `self._state` before `self._persist()` runs; `_persist`
(lines 82-84) has no exception handler, so on a write failure the exception
propagates out of `update` and the event append, the broadcast and the
return are all skipped, while the in-memory state keeps the patch. -/
def serviceUpdate (s : BusState) (patch : StateMap) (now : Nat) (persistOk : Bool) :
    BusState × UpdateResult :=
  let st := applyPatch s.state patch now
  let s1 : BusState := { s with state := st }
  if persistOk then
    let ev : Event := { etype := "state", data := st, ts := now }
    ({ s1 with history := ringAppend s1.histCap s1.history ev,
               listeners := broadcastEvent s1.listeners ev }, .ok st)
  else (s1, .persistRaised)

/-- `SpeechTask` (speech_service.py lines 24-29). -/
structure SpeechTask where
  tid : String
  text : String
  voice : Option String
  created_at : Nat
deriving DecidableEq, Repr

/-- The exceptions `SpeechService.enqueue` raises: `ValueError` for blank
text, `RuntimeError("Speech queue is full")` for a saturated queue. -/
inductive SpeechErr where
  | valueError
  | queueFullError
deriving DecidableEq, Repr

/-- Whitespace as Python's `str.strip()` removes it. -/
def isSpaceChar (c : Char) : Bool :=
  c = ' ' ∨ c = '\t' ∨ c = '\n' ∨ c = '\r'

/-- Python's `text.strip()`: drop leading and trailing whitespace. -/
def pyStrip (s : String) : String :=
  ⟨((s.data.dropWhile isSpaceChar).reverse.dropWhile isSpaceChar).reverse⟩

/-- `SpeechService.enqueue` (lines 43-52): reject whitespace-only text before
touching the queue; otherwise build the task and `put_nowait` it, translating
`queue.Full` into the capacity error.  The result pairs the raised exception
or returned task with the queue contents after the call. -/
def speechEnqueue (q : List SpeechTask) (cap : Nat) (text : String)
    (voice : Option String) (tid : String) (now : Nat) :
    Except SpeechErr SpeechTask × List SpeechTask :=
  if pyStrip text = "" then (.error .valueError, q)
  else
    let task : SpeechTask := { tid := tid, text := pyStrip text, voice := voice, created_at := now }
    if 0 < cap ∧ cap ≤ q.length then (.error .queueFullError, q)
    else (.ok task, q ++ [task])

/-- The `/api/speak` handler (api.py lines 107-120): blank text is rejected
with 400 before `enqueue` is called; the `RuntimeError` raised on a full
queue is caught and mapped to 429; success returns 200 with the task id.
The blank-text `ValueError` is unreachable past the 400 guard, which checks
the same `text.strip()` condition. -/
def speakEndpoint (payloadText : Option String) (voice : Option String)
    (q : List SpeechTask) (cap : Nat) (tid : String) (now : Nat) : Nat :=
  let text := payloadText.getD ""
  if pyStrip text = "" then 400
  else
    match (speechEnqueue q cap text voice tid now).1 with
    | .error _ => 429
    | .ok _ => 200

/-- Program counter of the speech worker thread (`_worker_loop`, lines 87-99):
at the `while self._running.is_set()` check, at the blocking
`self._queue.get(timeout=0.5)`, or exited. -/
inductive WorkerPC where
  | loopHead
  | atGet
  | exited
deriving DecidableEq, Repr

/-- Interleaving state of `SpeechService` for the shutdown protocol: the
`_running` event flag, the bounded task queue (task ids; `"__quit__"` is the
shutdown sentinel), the lifecycle events the worker has emitted via
`record_event`, and the worker's program counter. -/
structure SpeechSvc where
  runningFlag : Bool
  cap : Nat
  queue : List String
  events : List (String × String)
  pc : WorkerPC
deriving DecidableEq, Repr

/-- One atomic step of another thread, or one statement-level step of the
worker thread. -/
inductive SvcAction where
  | workerStep
  | enqueueTask (tid : String)
  | stopCall
deriving DecidableEq, Repr

/-- Statement-level interleaving semantics of `SpeechService`:

* `workerStep` at `loopHead` performs the `self._running.is_set()` check
  (lines 88): true moves to the dequeue, false leaves the loop.
* `workerStep` at `atGet` performs `self._queue.get(timeout=0.5)` (lines
  89-98): an empty queue times out (`queue.Empty` → `continue`); the
  sentinel breaks out of the loop; a real task is handled, emitting its
  `started` and terminal lifecycle events, and control returns to the check.
* `enqueueTask` is `enqueue`'s `put_nowait` (line 48), which never consults
  the running flag; a full queue leaves the state unchanged.
* `stopCall` is `SpeechService.stop` (lines 54-61): clear the flag, then
  `put_nowait` the `"__quit__"` sentinel, ignoring `queue.Full`. -/
def svcStep (s : SpeechSvc) (a : SvcAction) : SpeechSvc :=
  match a with
  | .workerStep =>
    match s.pc with
    | .loopHead => if s.runningFlag then { s with pc := .atGet } else { s with pc := .exited }
    | .atGet =>
      match s.queue with
      | [] => { s with pc := .loopHead }
      | t :: rest =>
        if t = "__quit__" then { s with queue := rest, pc := .exited }
        else { s with queue := rest,
                      events := s.events ++ [(t, "started"), (t, "completed")],
                      pc := .loopHead }
    | .exited => s
  | .enqueueTask tid =>
      if 0 < s.cap ∧ s.cap ≤ s.queue.length then s
      else { s with queue := s.queue ++ [tid] }
  | .stopCall =>
      { s with runningFlag := false,
               queue := if 0 < s.cap ∧ s.cap ≤ s.queue.length then s.queue
                        else s.queue ++ ["__quit__"] }

/-- Run an interleaving of worker and client steps. -/
def svcRun (s : SpeechSvc) (acts : List SvcAction) : SpeechSvc :=
  acts.foldl svcStep s

/-- A freshly constructed `SpeechService`: flag set, empty queue, worker at
the top of its loop. -/
def svcInit (cap : Nat) : SpeechSvc :=
  { runningFlag := true, cap := cap, queue := [], events := [], pc := .loopHead }

/-- `CameraStream._loop` (camera_service.py lines 70-83) folded over one
capture iteration: a successful capture+encode overwrites the single slot
under the per-stream lock, a failed read or encode leaves it untouched. -/
def slotAfterCapture (slot : Option (List Nat)) (captured : Option (List Nat)) :
    Option (List Nat) :=
  match captured with
  | some bytes => some bytes
  | none => slot

/-- The slot contents after a sequence of capture iterations, each recorded as
`some bytes` (successful capture and encode) or `none` (failure).
`CameraStream.frame` (lines 52-54) returns exactly this slot under the same
lock the writer holds, so a reader sees either the previous or the new
complete buffer, never a mixture. -/
def frameAfter (captures : List (Option (List Nat))) : Option (List Nat) :=
  captures.foldl slotAfterCapture none

/-- State of one SSE client subscription against the `StateService` bus:
the history ring, whether the client's queue is registered, the client's
queue, and the history snapshot once `history()` has been called. -/
structure SseState where
  histCap : Nat
  hist : List Event
  registered : Bool
  qcap : Nat
  queue : List Event
  snap : Option (List Event)
deriving DecidableEq, Repr

/-- Atomic actions in the subscription scenario of `stream.events`
(stream.py lines 24-41): `register` is `state_service.add_listener()`
(state_service.py lines 62-66, under the bus lock), `takeSnapshot` is
`state_service.history()` (lines 58-60, under the bus lock, run later inside
the generator), and `produce e` is a producer's `record_event`/`update`:
append to history, then `_broadcast`, whose `put_nowait` on a full client
queue removes the client. -/
inductive SseAction where
  | register
  | takeSnapshot
  | produce (e : Event)
deriving DecidableEq, Repr

/-- One atomic action of the subscription scenario. -/
def sseStep (s : SseState) (a : SseAction) : SseState :=
  match a with
  | .register => { s with registered := true }
  | .takeSnapshot => { s with snap := some s.hist }
  | .produce e =>
      let s1 := { s with hist := ringAppend s.histCap s.hist e }
      if s1.registered then
        if 0 < s1.qcap ∧ s1.qcap ≤ s1.queue.length then { s1 with registered := false }
        else { s1 with queue := s1.queue ++ [e] }
      else s1

/-- Run an interleaving of subscription steps and broadcasts. -/
def sseRun (s : SseState) (acts : List SseAction) : SseState :=
  acts.foldl sseStep s

/-- The bus before the client connects: empty history, client not yet
registered. -/
def sseInit (histCap qcap : Nat) : SseState :=
  { histCap := histCap, hist := [], registered := false, qcap := qcap,
    queue := [], snap := none }

/-- What the generator in `stream.events` sends to the client: every event of
the history snapshot in order, then the events drained from the live queue. -/
def delivered (s : SseState) : List Event :=
  s.snap.getD [] ++ s.queue

/-- Modelled from the spec: one entry of the merge described as "merges
top-level keys from `patch` into current state; if `patch` contains a
`toggles` sub-mapping, merge it key-by-key into the existing `toggles` map
instead of replacing it".  An ordinary key is assigned; a `toggles`
sub-mapping is merged key-by-key into the existing `toggles` dict; a
non-mapping `toggles` value is skipped, the behaviour the source gives it. -/
def specStep (acc : StateMap) (kv : String × Val) : StateMap :=
  if kv.1 = "toggles" then
    match kv.2 with
    | .vdict tp =>
        let cur : Toggles :=
          match dictGet acc "toggles" with
          | some (.vdict d) => d
          | _ => []
        dictSet acc "toggles" (.vdict (dictUpdate cur tp))
    | .prim _ => acc
  else dictSet acc kv.1 kv.2

/-- Modelled from the spec: the key-wise merge of a whole patch, applied as a
single in-order pass over the patch entries — to be compared with the
source's `mergePatch`. -/
def specMerge (st : StateMap) (patch : StateMap) : StateMap :=
  patch.foldl specStep st

/-! ## Dictionary lemmas -/

theorem dictGet_dictSet_self (m : List (String × α)) (k : String) (v : α) :
    dictGet (dictSet m k v) k = some v := by
  induction m with
  | nil => simp [dictGet, dictSet]
  | cons kv rest ih =>
    by_cases h : kv.1 = k <;> simp [dictGet, dictSet, h, ih]

theorem dictGet_dictSet_ne (m : List (String × α)) (k k' : String) (v : α)
    (h : k' ≠ k) : dictGet (dictSet m k' v) k = dictGet m k := by
  induction m with
  | nil => simp [dictGet, dictSet, h]
  | cons kv rest ih =>
    by_cases hk : kv.1 = k'
    · simp [dictGet, dictSet, hk, h]
    · by_cases hk2 : kv.1 = k <;> simp [dictGet, dictSet, hk, hk2, h, Ne.symm h, ih]

theorem hasKey_dictSet (m : List (String × α)) (k k' : String) (v : α)
    (h : hasKey m k = true) : hasKey (dictSet m k' v) k = true := by
  by_cases hk : k' = k
  · subst hk; simp [hasKey, dictGet_dictSet_self]
  · simpa [hasKey, dictGet_dictSet_ne m k k' v hk] using h

theorem dictSet_comm (m : List (String × α)) (k k' : String) (v v' : α)
    (hne : k ≠ k') (hk : hasKey m k = true) :
    dictSet (dictSet m k v) k' v' = dictSet (dictSet m k' v') k v := by
  induction m with
  | nil => simp [hasKey, dictGet] at hk
  | cons kv rest ih =>
    by_cases h1 : kv.1 = k
    · simp [dictSet, h1, hne, Ne.symm hne]
    · by_cases h2 : kv.1 = k'
      · simp [dictSet, h1, h2, hne, Ne.symm hne]
      · have hk' : hasKey rest k = true := by
          simpa [hasKey, dictGet, h1] using hk
        simp [dictSet, h1, h2, ih hk']

theorem dictGet_dictUpdate_not_mem (m patch : List (String × α)) (k : String)
    (h : ∀ kv ∈ patch, kv.1 ≠ k) :
    dictGet (dictUpdate m patch) k = dictGet m k := by
  induction patch generalizing m with
  | nil => rfl
  | cons kv rest ih =>
    have h1 : kv.1 ≠ k := h kv (by simp)
    have h2 : ∀ kv' ∈ rest, kv'.1 ≠ k := fun kv' hm => h kv' (by simp [hm])
    calc dictGet (dictUpdate m (kv :: rest)) k
        = dictGet (dictUpdate (dictSet m kv.1 kv.2) rest) k := rfl
      _ = dictGet (dictSet m kv.1 kv.2) k := ih _ h2
      _ = dictGet m k := dictGet_dictSet_ne m k kv.1 kv.2 h1

theorem dictUpdate_dictSet (m patch : List (String × α)) (k : String) (v : α)
    (hk : hasKey m k = true) (hp : ∀ kv ∈ patch, kv.1 ≠ k) :
    dictUpdate (dictSet m k v) patch = dictSet (dictUpdate m patch) k v := by
  induction patch generalizing m with
  | nil => rfl
  | cons kv rest ih =>
    have h1 : kv.1 ≠ k := hp kv (by simp)
    have h2 : ∀ kv' ∈ rest, kv'.1 ≠ k := fun kv' hm => hp kv' (by simp [hm])
    calc dictUpdate (dictSet m k v) (kv :: rest)
        = dictUpdate (dictSet (dictSet m k v) kv.1 kv.2) rest := rfl
      _ = dictUpdate (dictSet (dictSet m kv.1 kv.2) k v) rest := by
            rw [dictSet_comm m k kv.1 v kv.2 (Ne.symm h1) hk]
      _ = dictSet (dictUpdate (dictSet m kv.1 kv.2) rest) k v :=
            ih _ (hasKey_dictSet m k kv.1 kv.2 hk) h2
      _ = dictSet (dictUpdate m (kv :: rest)) k v := rfl

theorem mem_removeKey_ne (m : List (String × α)) (k : String) :
    ∀ kv ∈ removeKey m k, kv.1 ≠ k := by
  intro kv hm
  have := List.of_mem_filter hm
  simpa using this

theorem dictGet_removeKey_self (m : List (String × α)) (k : String) :
    dictGet (removeKey m k) k = none := by
  induction m with
  | nil => rfl
  | cons kv rest ih =>
    by_cases h : kv.1 = k
    · simpa [removeKey, List.filter_cons, h] using ih
    · simpa [removeKey, List.filter_cons, dictGet, h] using ih

theorem removeKey_idem (m : List (String × α)) (k : String) :
    removeKey (removeKey m k) k = removeKey m k := by
  simp [removeKey, List.filter_filter]

theorem removeKey_eq_of_not_mem (m : List (String × α)) (k : String)
    (h : ∀ kv ∈ m, kv.1 ≠ k) : removeKey m k = m := by
  induction m with
  | nil => rfl
  | cons kv rest ih =>
    have h1 : kv.1 ≠ k := h kv (by simp)
    have h2 : ∀ kv' ∈ rest, kv'.1 ≠ k := fun kv' hm => h kv' (by simp [hm])
    have hb : decide (kv.1 ≠ k) = true := by simpa using h1
    have hr := ih h2
    simp only [removeKey] at hr ⊢
    simp only [List.filter_cons, hb, if_true]
    rw [hr]

/-! ## History ring lemmas -/

theorem ringAppend_length_le (cap : Nat) (h : List α) (e : α) :
    (ringAppend cap h e).length ≤ cap := by
  simp only [ringAppend, List.length_drop, List.length_append, List.length_cons,
    List.length_nil]
  omega

theorem ringAppend_of_lt (cap : Nat) (h : List α) (e : α) (hlt : h.length < cap) :
    ringAppend cap h e = h ++ [e] := by
  have : h.length + 1 - cap = 0 := by omega
  simp [ringAppend, this]

theorem foldl_ringAppend_eq_drop (cap : Nat) (evs : List α) (h0 : List α)
    (hlen : h0.length ≤ cap) :
    evs.foldl (ringAppend cap) h0 = (h0 ++ evs).drop (h0.length + evs.length - cap) := by
  induction evs generalizing h0 with
  | nil =>
    have hz : h0.length - cap = 0 := by omega
    simp [hz]
  | cons e evs ih =>
    have hkey : (h0.length + 1) - cap ≤ (h0 ++ [e]).length := by
      simp only [List.length_append, List.length_cons, List.length_nil]; omega
    have h1len : (ringAppend cap h0 e).length ≤ cap := ringAppend_length_le cap h0 e
    have step : List.foldl (ringAppend cap) h0 (e :: evs)
        = List.foldl (ringAppend cap) (ringAppend cap h0 e) evs := rfl
    rw [step, ih _ h1len]
    have harr : ringAppend cap h0 e ++ evs
        = ((h0 ++ [e]) ++ evs).drop ((h0.length + 1) - cap) := by
      rw [List.drop_append_of_le_length hkey]
      simp only [ringAppend, List.length_append, List.length_cons, List.length_nil,
        Nat.zero_add]
    rw [harr, List.drop_drop]
    have hlen1 : (ringAppend cap h0 e).length = (h0.length + 1) - ((h0.length + 1) - cap) := by
      simp only [ringAppend, List.length_drop, List.length_append, List.length_cons,
        List.length_nil, Nat.zero_add]
    rw [hlen1]
    have hassoc : (h0 ++ [e]) ++ evs = h0 ++ e :: evs := by simp
    rw [hassoc]
    congr 1
    simp only [List.length_cons]
    omega

/-! ## Claim theorems -/

/-- C6: for every sequence of appended events, the history ring built by
`StateService.__init__`'s `deque(maxlen=cap)` holds at most `cap` events
after every operation, eviction removes the oldest events first, and the
oldest-first copy returned by `history()` is exactly the suffix of the
appended events that fits the capacity. -/
theorem history_ring_bounded_fifo (cap : Nat) (evs : List Event) :
    (evs.foldl (ringAppend cap) []).length ≤ cap ∧
    evs.foldl (ringAppend cap) [] = evs.drop (evs.length - cap) := by
  have h := foldl_ringAppend_eq_drop cap evs [] (by simp)
  simp only [List.nil_append, List.length_nil, Nat.zero_add] at h
  refine ⟨?_, h⟩
  rw [h]
  simp only [List.length_drop]
  omega

/-- C8: `CameraStream.frame` reads the single slot written by the capture
loop: it is `none` before the first successful capture and afterwards holds
exactly the bytes of the most recently completed successful capture, whole
(the slot is written and read under the same per-stream lock, so the fold
over complete capture results is the full behaviour). -/
theorem frame_is_latest_successful_capture (captures : List (Option (List Nat))) :
    frameAfter captures = (captures.filterMap id).getLast? := by
  induction captures using List.reverseRecOn with
  | nil => rfl
  | append_singleton cs c ih =>
    cases c with
    | none =>
      simp only [frameAfter, List.foldl_append] at ih ⊢
      simpa [slotAfterCapture] using ih
    | some b =>
      simp only [frameAfter, List.foldl_append, List.foldl_cons, List.foldl_nil,
        slotAfterCapture]
      simp [List.filterMap_append]

/-- C5: `StateService._broadcast` performs a non-blocking enqueue into each
listener queue of a copy of the registry; every listener whose queue is full
at broadcast time is removed, every other listener stays (in order) with the
event appended to its queue, and the broadcast is a total function of the
registry — it neither raises nor blocks, and later broadcasts act on the
remaining listeners by the same equation. -/
theorem broadcast_drops_full_listeners (ls : List Listener) (e : Event) :
    broadcastEvent ls e =
      (ls.filter (fun l => !isFull l)).map (fun l => { l with queue := l.queue ++ [e] }) := by
  induction ls with
  | nil => rfl
  | cons l rest ih =>
    by_cases h : isFull l = true <;>
      simp [broadcastEvent, putNowait, List.filter_cons, h] at ih ⊢ <;> exact ih

/-- C2: when the synchronous `self._persist()` inside `StateService.update`
fails, the in-memory state keeps the merged patch, but contrary to the claim
the exception is neither caught nor logged: the state event is not appended
to history, nothing is broadcast, and `update` raises instead of returning
the new snapshot.  Shown false at a concrete input: with the default state,
one listener and an empty history, a failing persist leaves history empty
and yields `persistRaised` rather than the claimed `ok` snapshot. -/
theorem persist_failure_aborts_fanout_cex :
    (serviceUpdate
        { state := DEFAULT_STATE, histCap := 100, history := [],
          listeners := [{ lid := 0, cap := 32, queue := [] }] }
        [("state", .prim (.pstr "listening"))] 3 false).2 ≠
      .ok (applyPatch DEFAULT_STATE [("state", .prim (.pstr "listening"))] 3) ∧
    (serviceUpdate
        { state := DEFAULT_STATE, histCap := 100, history := [],
          listeners := [{ lid := 0, cap := 32, queue := [] }] }
        [("state", .prim (.pstr "listening"))] 3 false).2 = .persistRaised ∧
    (serviceUpdate
        { state := DEFAULT_STATE, histCap := 100, history := [],
          listeners := [{ lid := 0, cap := 32, queue := [] }] }
        [("state", .prim (.pstr "listening"))] 3 false).1.history = [] ∧
    (serviceUpdate
        { state := DEFAULT_STATE, histCap := 100, history := [],
          listeners := [{ lid := 0, cap := 32, queue := [] }] }
        [("state", .prim (.pstr "listening"))] 3 false).1.listeners
      = [{ lid := 0, cap := 32, queue := [] }] := by
  decide

/-- C2 (amended): a persist failure during `StateService.update` leaves the
in-memory state holding the merged patch (the assignment precedes the disk
write, so there is no rollback), but the exception propagates out of
`update`: the state event is not appended to history, no broadcast happens,
and no snapshot is returned — while a successful persist appends the event
and returns the new snapshot. -/
theorem update_persist_failure_behavior (s : BusState) (patch : StateMap) (now : Nat) :
    (serviceUpdate s patch now false).1.state = applyPatch s.state patch now ∧
    (serviceUpdate s patch now false).1.history = s.history ∧
    (serviceUpdate s patch now false).1.listeners = s.listeners ∧
    (serviceUpdate s patch now false).2 = .persistRaised ∧
    (serviceUpdate s patch now true).2 = .ok (applyPatch s.state patch now) ∧
    (serviceUpdate s patch now true).1.history =
      ringAppend s.histCap s.history
        { etype := "state", data := applyPatch s.state patch now, ts := now } := by
  simp [serviceUpdate]

/-- C4: `SpeechService.enqueue` rejects whitespace-only text with the
validation error before the queue is touched; with a bounded queue at
capacity it returns the distinct capacity error without blocking and
without changing the queue, and the `/api/speak` boundary surfaces that
error as HTTP 429; otherwise it appends and returns the created task.
The two errors are distinct constructors. -/
theorem enqueue_validation_and_backpressure (q : List SpeechTask) (cap : Nat)
    (text : String) (voice : Option String) (tid : String) (now : Nat) :
    (pyStrip text = "" →
      speechEnqueue q cap text voice tid now = (.error .valueError, q)) ∧
    (pyStrip text ≠ "" → 0 < cap → cap ≤ q.length →
      speechEnqueue q cap text voice tid now = (.error .queueFullError, q) ∧
      speakEndpoint (some text) voice q cap tid now = 429) ∧
    (pyStrip text ≠ "" → ¬(0 < cap ∧ cap ≤ q.length) →
      speechEnqueue q cap text voice tid now =
        (.ok { tid := tid, text := pyStrip text, voice := voice, created_at := now },
          q ++ [{ tid := tid, text := pyStrip text, voice := voice, created_at := now }]) ∧
      speakEndpoint (some text) voice q cap tid now = 200) ∧
    SpeechErr.valueError ≠ SpeechErr.queueFullError := by
  refine ⟨?_, ?_, ?_, by decide⟩
  · intro h
    simp [speechEnqueue, h]
  · intro h h1 h2
    constructor
    · simp [speechEnqueue, h, h1, h2]
    · simp [speakEndpoint, speechEnqueue, h, h1, h2]
  · intro h h2
    constructor
    · simp [speechEnqueue, h, h2]
    · simp [speakEndpoint, speechEnqueue, h, h2]

/-- C4 witness: the three contract cases at concrete inputs — blank text is
rejected with the queue untouched, a full capacity-1 queue yields the
capacity error and HTTP 429, and a non-full queue accepts the task. -/
theorem enqueue_validation_and_backpressure_witness :
    speechEnqueue [] 4 "  " none "t1" 0 = (.error .valueError, []) ∧
    (speechEnqueue [{ tid := "t0", text := "x", voice := none, created_at := 0 }] 1
        "hi " none "t1" 3 =
      (.error .queueFullError, [{ tid := "t0", text := "x", voice := none, created_at := 0 }]) ∧
      speakEndpoint (some "hi ") none
        [{ tid := "t0", text := "x", voice := none, created_at := 0 }] 1 "t1" 3 = 429) ∧
    (speechEnqueue [] 2 "hello" none "t2" 5 =
      (.ok { tid := "t2", text := "hello", voice := none, created_at := 5 },
        [{ tid := "t2", text := "hello", voice := none, created_at := 5 }]) ∧
      speakEndpoint (some "hello") none [] 2 "t2" 5 = 200) :=
  ⟨(enqueue_validation_and_backpressure [] 4 "  " none "t1" 0).1 (by decide),
   (enqueue_validation_and_backpressure _ 1 "hi " none "t1" 3).2.1
     (by decide) (by decide) (by decide),
   by
     have h := (enqueue_validation_and_backpressure [] 2 "hello" none "t2" 5).2.2.1
       (by decide) (by decide)
     simpa using h⟩

end Echo

namespace Echo

theorem dictGet_stampLastTalk_ne (st : StateMap) (now : Nat) (k : String)
    (h : k ≠ "last_talk") :
    dictGet (stampLastTalk st now) k = dictGet st k := by
  unfold stampLastTalk
  split
  · exact dictGet_dictSet_ne st k "last_talk" _ (Ne.symm h)
  · rfl

/-- C7: the claim reads the stamp condition as "no `last_talk` key present",
but the source tests Python truthiness of `state.get("last_talk")`.  Shown
false at a concrete input: starting from `DEFAULT_STATE` the `last_talk`
key is present with value `0.0`, the merge leaves it at `0.0`, yet
`update({"state": "talking"})` at time 7 stamps it to 7 instead of leaving
it as the merge produced. -/
theorem lastTalk_stamp_cex :
    dictGet DEFAULT_STATE "last_talk" = some (.prim (.pnum 0)) ∧
    dictGet (mergePatch DEFAULT_STATE [("state", .prim (.pstr "talking"))]) "last_talk"
      = some (.prim (.pnum 0)) ∧
    dictGet (applyPatch DEFAULT_STATE [("state", .prim (.pstr "talking"))] 7) "last_talk"
      = some (.prim (.pnum 7)) := by
  decide

/-- C7 (amended): after the merge performed by `StateService.update`, if the
merged `state` is `"talking"` and the merged `last_talk` is absent or falsy
(`0`, `""`, `False`, `None`, `{}`), then `last_talk` is set to the current
time; in every other case the update leaves the whole state exactly as the
merge produced it, and in all cases every key other than `last_talk` is
exactly as the merge produced it. -/
theorem lastTalk_stamp_characterization (st patch : StateMap) (now : Nat) :
    (dictGet (mergePatch st patch) "state" = some (.prim (.pstr "talking")) ∧
        pyFalsy (dictGet (mergePatch st patch) "last_talk") = true →
      dictGet (applyPatch st patch now) "last_talk" = some (.prim (.pnum now))) ∧
    (¬(dictGet (mergePatch st patch) "state" = some (.prim (.pstr "talking")) ∧
        pyFalsy (dictGet (mergePatch st patch) "last_talk") = true) →
      applyPatch st patch now = mergePatch st patch) ∧
    (∀ k, k ≠ "last_talk" →
      dictGet (applyPatch st patch now) k = dictGet (mergePatch st patch) k) := by
  refine ⟨?_, ?_, ?_⟩
  · intro h
    unfold applyPatch stampLastTalk
    rw [if_pos h]
    exact dictGet_dictSet_self _ _ _
  · intro h
    unfold applyPatch stampLastTalk
    rw [if_neg h]
  · intro k hk
    exact dictGet_stampLastTalk_ne _ now k hk

/-- C7 witness: both branches of the amended stamp characterization at
concrete inputs — a talking merge with falsy `last_talk` gets stamped with
the current time, a non-talking merge is returned untouched, and the
`state` key is never altered by the stamp. -/
theorem lastTalk_stamp_characterization_witness :
    dictGet (applyPatch DEFAULT_STATE [("state", .prim (.pstr "talking"))] 7) "last_talk"
      = some (.prim (.pnum 7)) ∧
    applyPatch DEFAULT_STATE [("mode", .prim (.pstr "day"))] 7
      = mergePatch DEFAULT_STATE [("mode", .prim (.pstr "day"))] ∧
    dictGet (applyPatch DEFAULT_STATE [("state", .prim (.pstr "talking"))] 7) "state"
      = dictGet (mergePatch DEFAULT_STATE [("state", .prim (.pstr "talking"))]) "state" :=
  ⟨(lastTalk_stamp_characterization DEFAULT_STATE [("state", .prim (.pstr "talking"))] 7).1
      (by decide),
   (lastTalk_stamp_characterization DEFAULT_STATE [("mode", .prim (.pstr "day"))] 7).2.1
      (by decide),
   (lastTalk_stamp_characterization DEFAULT_STATE [("state", .prim (.pstr "talking"))] 7).2.2
      "state" (by decide)⟩

end Echo

namespace Echo

/-- C9: a patch whose `toggles` key holds a non-mapping value behaves exactly
like the same patch with the `toggles` entry deleted — `update` pops the
entry before merging and the `isinstance(dict)` guard then skips the merge —
so the non-mapping value is silently discarded, the state's existing
`toggles` value is unchanged, and the value appears nowhere the patch did
not already put it. -/
theorem nonmapping_toggles_discarded (st patch : StateMap) (now : Nat) (p : Prim)
    (h : dictGet patch "toggles" = some (.prim p)) :
    applyPatch st patch now = applyPatch st (removeKey patch "toggles") now ∧
    dictGet (applyPatch st patch now) "toggles" = dictGet st "toggles" := by
  have hmerge : mergePatch st patch = dictUpdate st (removeKey patch "toggles") := by
    simp [mergePatch, h]
  have hmerge2 : mergePatch st (removeKey patch "toggles")
      = dictUpdate st (removeKey patch "toggles") := by
    simp [mergePatch, dictGet_removeKey_self, removeKey_idem]
  constructor
  · unfold applyPatch
    rw [hmerge, hmerge2]
  · unfold applyPatch
    rw [hmerge]
    rw [dictGet_stampLastTalk_ne _ now "toggles" (by decide)]
    exact dictGet_dictUpdate_not_mem st _ "toggles" (mem_removeKey_ne patch "toggles")

/-- C9 witness: at a concrete input, a patch carrying `"toggles": 5` and a
real key update is equivalent to the patch without the `toggles` entry, and
the existing `toggles` map survives unchanged. -/
theorem nonmapping_toggles_discarded_witness :
    applyPatch DEFAULT_STATE
        [("toggles", .prim (.pnum 5)), ("mode", .prim (.pstr "day"))] 9
      = applyPatch DEFAULT_STATE
          (removeKey [("toggles", .prim (.pnum 5)), ("mode", .prim (.pstr "day"))] "toggles") 9 ∧
    dictGet (applyPatch DEFAULT_STATE
        [("toggles", .prim (.pnum 5)), ("mode", .prim (.pstr "day"))] 9) "toggles"
      = dictGet DEFAULT_STATE "toggles" :=
  nonmapping_toggles_discarded DEFAULT_STATE
    [("toggles", .prim (.pnum 5)), ("mode", .prim (.pstr "day"))] 9 (.pnum 5) (by decide)

end Echo

namespace Echo

theorem svcStep_after_flag_cleared (s : SpeechSvc) (a : SvcAction)
    (hflag : s.runningFlag = false) (hpc : s.pc ≠ .atGet) :
    (svcStep s a).events = s.events ∧ (svcStep s a).pc ≠ .atGet ∧
    (svcStep s a).runningFlag = false := by
  cases a with
  | workerStep =>
    cases hp : s.pc with
    | loopHead => simp [svcStep, hp, hflag]
    | atGet => exact absurd hp hpc
    | exited => simp [svcStep, hp, hpc, hflag]
  | enqueueTask tid =>
    by_cases h : 0 < s.cap ∧ s.cap ≤ s.queue.length <;>
      simp [svcStep, h, hpc, hflag]
  | stopCall =>
    simp [svcStep, hpc, hflag]

/-- C10: the claim says that after `SpeechService.stop()` the worker executes
no further queued task.  Shown false at a concrete interleaving: the worker
passes the `self._running.is_set()` check, then `"a"` is enqueued and
`stop()` runs (flag cleared, sentinel appended behind `"a"`); the task
`"a"` is still pending in the queue after `stop()`, yet the worker's next
step dequeues and executes it, emitting its lifecycle events. -/
theorem stop_abandons_pending_cex :
    (svcRun (svcInit 8) [.workerStep, .enqueueTask "a", .stopCall]).runningFlag = false ∧
    (svcRun (svcInit 8) [.workerStep, .enqueueTask "a", .stopCall]).queue
      = ["a", "__quit__"] ∧
    (svcRun (svcInit 8) [.workerStep, .enqueueTask "a", .stopCall]).events = [] ∧
    (svcRun (svcInit 8) [.workerStep, .enqueueTask "a", .stopCall, .workerStep]).events
      = [("a", "started"), ("a", "completed")] := by
  decide

/-- C10 (amended): once the worker has observed the cleared running flag —
any state where the flag is down and the worker is not already blocked
inside `queue.get` — it never executes another queued task: under every
further interleaving of worker steps, enqueues and stop calls, no lifecycle
event is ever emitted again, so the tasks abandoned in the queue never
receive `started`, `completed` or `failed` events.  (A task dequeued in the
race window between the worker's last flag check and `stop()` may still be
executed, as the counterexample shows.) -/
theorem worker_emits_nothing_after_observing_stop (s : SpeechSvc) (acts : List SvcAction)
    (hflag : s.runningFlag = false) (hpc : s.pc ≠ .atGet) :
    (svcRun s acts).events = s.events ∧ (svcRun s acts).pc ≠ .atGet ∧
    (svcRun s acts).runningFlag = false := by
  induction acts generalizing s with
  | nil => exact ⟨rfl, hpc, hflag⟩
  | cons a rest ih =>
    obtain ⟨he, hp, hf⟩ := svcStep_after_flag_cleared s a hflag hpc
    obtain ⟨ihe, ihp, ihf⟩ := ih (svcStep s a) hf hp
    refine ⟨?_, ihp, ihf⟩
    have hstep : svcRun s (a :: rest) = svcRun (svcStep s a) rest := rfl
    rw [hstep, ihe, he]

/-- C10 witness: a stopped service with task `"a"` still pending emits no
lifecycle events under a further interleaving of worker steps, an enqueue
and a redundant stop. -/
theorem worker_emits_nothing_after_observing_stop_witness :
    (svcRun { runningFlag := false, cap := 4, queue := ["a"], events := [],
              pc := .loopHead }
        [.workerStep, .workerStep, .enqueueTask "b", .stopCall, .workerStep]).events
      = [] :=
  (worker_emits_nothing_after_observing_stop
      { runningFlag := false, cap := 4, queue := ["a"], events := [], pc := .loopHead }
      [.workerStep, .workerStep, .enqueueTask "b", .stopCall, .workerStep]
      rfl (by decide)).1

end Echo

namespace Echo

theorem sseRun_append (s : SseState) (xs ys : List SseAction) :
    sseRun s (xs ++ ys) = sseRun (sseRun s xs) ys :=
  List.foldl_append ..

theorem sseRun_produce_unregistered (es : List Event) (hc qc : Nat)
    (hist q : List Event) (snap : Option (List Event)) :
    sseRun ⟨hc, hist, false, qc, q, snap⟩ (es.map .produce)
      = ⟨hc, es.foldl (ringAppend hc) hist, false, qc, q, snap⟩ := by
  induction es generalizing hist with
  | nil => rfl
  | cons e es ih =>
    have h1 : sseRun ⟨hc, hist, false, qc, q, snap⟩ ((e :: es).map .produce)
        = sseRun (sseStep ⟨hc, hist, false, qc, q, snap⟩ (.produce e)) (es.map .produce) := rfl
    have h2 : sseStep ⟨hc, hist, false, qc, q, snap⟩ (.produce e)
        = ⟨hc, ringAppend hc hist e, false, qc, q, snap⟩ := by
      simp [sseStep]
    rw [h1, h2, ih]
    rfl

theorem sseRun_produce_registered (es : List Event) (hc qc : Nat)
    (hist q : List Event) (snap : Option (List Event))
    (hroom : q.length + es.length ≤ qc) :
    sseRun ⟨hc, hist, true, qc, q, snap⟩ (es.map .produce)
      = ⟨hc, es.foldl (ringAppend hc) hist, true, qc, q ++ es, snap⟩ := by
  induction es generalizing hist q with
  | nil => simp [sseRun]
  | cons e es ih =>
    have hnotfull : ¬(0 < qc ∧ qc ≤ q.length) := by
      simp only [List.length_cons] at hroom
      omega
    have h2 : sseStep ⟨hc, hist, true, qc, q, snap⟩ (.produce e)
        = ⟨hc, ringAppend hc hist e, true, qc, q ++ [e], snap⟩ := by
      simp [sseStep, hnotfull]
    have h1 : sseRun ⟨hc, hist, true, qc, q, snap⟩ ((e :: es).map .produce)
        = sseRun (sseStep ⟨hc, hist, true, qc, q, snap⟩ (.produce e)) (es.map .produce) := rfl
    have hroom2 : (q ++ [e]).length + es.length ≤ qc := by
      simp only [List.length_append, List.length_cons, List.length_nil] at hroom ⊢
      omega
    rw [h1, h2, ih (ringAppend hc hist e) (q ++ [e]) hroom2]
    simp

/-- C1: the claim says listener registration and the history snapshot happen
atomically with respect to broadcasts, so every concurrently broadcast event
reaches the client exactly once.  Shown false at a concrete interleaving:
`stream.events` calls `add_listener()` and only later, inside the response
generator, `history()`; one event broadcast in between lands both in the
history snapshot and in the live queue and is delivered twice. -/
theorem sse_gap_event_duplicated_cex :
    delivered (sseRun (sseInit 100 32)
        [.register, .produce { etype := "state", data := [], ts := 1 }, .takeSnapshot])
      = [{ etype := "state", data := [], ts := 1 },
         { etype := "state", data := [], ts := 1 }] := by
  decide

/-- C1 (amended): registration is not atomic with the history snapshot — the
SSE handler registers the listener first and snapshots history later, each
under its own lock acquisition.  For every interleaving in which `bs` events
are broadcast before registration, `ms` events between registration and the
snapshot, and `tl` events afterwards (capacities permitting), the client
receives the history snapshot first, oldest first, then the live queue: the
`bs` and `tl` events exactly once, and every event of the gap `ms` twice —
once from history and once from the live queue; none is silently lost. -/
theorem sse_delivery_characterization (bs ms tl : List Event) (hc qc : Nat)
    (h1 : bs.length + ms.length ≤ hc) (h2 : ms.length + tl.length ≤ qc) :
    delivered (sseRun (sseInit hc qc)
        (bs.map .produce ++ [.register] ++ ms.map .produce
          ++ [.takeSnapshot] ++ tl.map .produce))
      = (bs ++ ms) ++ (ms ++ tl) := by
  have hbs : bs.foldl (ringAppend hc) [] = bs := by
    have h := foldl_ringAppend_eq_drop hc bs [] (by simp)
    simp only [List.nil_append, List.length_nil, Nat.zero_add] at h
    have hz : bs.length - hc = 0 := by omega
    rw [h, hz, List.drop_zero]
  have hms : ms.foldl (ringAppend hc) bs = bs ++ ms := by
    have h := foldl_ringAppend_eq_drop hc ms bs (by omega)
    have hz : bs.length + ms.length - hc = 0 := by omega
    rw [h, hz, List.drop_zero]
  rw [sseRun_append, sseRun_append, sseRun_append, sseRun_append]
  have s0 : sseInit hc qc = ⟨hc, [], false, qc, [], none⟩ := rfl
  rw [s0, sseRun_produce_unregistered, hbs]
  have hreg : sseRun ⟨hc, bs, false, qc, [], none⟩ [.register]
      = ⟨hc, bs, true, qc, [], none⟩ := rfl
  rw [hreg]
  rw [sseRun_produce_registered ms hc qc bs [] none (by simpa using by omega), hms]
  have hsnap : sseRun ⟨hc, bs ++ ms, true, qc, [] ++ ms, none⟩ [.takeSnapshot]
      = ⟨hc, bs ++ ms, true, qc, ms, some (bs ++ ms)⟩ := by
    simp [sseRun, sseStep]
  rw [hsnap]
  rw [sseRun_produce_registered tl hc qc (bs ++ ms) ms (some (bs ++ ms)) (by omega)]
  simp [delivered]

/-- C1 witness: three events broadcast before registration, in the gap, and
after the snapshot — the gap event arrives twice, the others once, history
first. -/
theorem sse_delivery_characterization_witness :
    delivered (sseRun (sseInit 10 10)
        ([{ etype := "state", data := [], ts := 1 }].map .produce ++ [.register]
          ++ [{ etype := "speech", data := [], ts := 2 }].map .produce
          ++ [.takeSnapshot]
          ++ [{ etype := "state", data := [], ts := 3 }].map .produce))
      = [{ etype := "state", data := [], ts := 1 },
         { etype := "speech", data := [], ts := 2 },
         { etype := "speech", data := [], ts := 2 },
         { etype := "state", data := [], ts := 3 }] := by
  have h := sse_delivery_characterization
    [{ etype := "state", data := [], ts := 1 }]
    [{ etype := "speech", data := [], ts := 2 }]
    [{ etype := "state", data := [], ts := 3 }]
    10 10 (by decide) (by decide)
  simpa using h

end Echo

namespace Echo

theorem mergePatch_cons_ne (st rest : StateMap) (k : String) (v : Val)
    (h : k ≠ "toggles") :
    mergePatch st ((k, v) :: rest) = mergePatch (dictSet st k v) rest := by
  unfold mergePatch
  have h1 : dictGet ((k, v) :: rest) "toggles" = dictGet rest "toggles" := by
    simp [dictGet, h]
  have h2 : removeKey ((k, v) :: rest) "toggles" = (k, v) :: removeKey rest "toggles" := by
    simp [removeKey, List.filter_cons, h]
  rw [h1, h2]
  rfl

theorem specMerge_no_toggles (rest : StateMap) :
    ∀ st : StateMap, (∀ kv ∈ rest, kv.1 ≠ "toggles") →
      specMerge st rest = dictUpdate st rest := by
  induction rest with
  | nil => intro st _; rfl
  | cons kv tail ih =>
    intro st h
    have h1 : kv.1 ≠ "toggles" := h kv (by simp)
    have h2 : ∀ kv' ∈ tail, kv'.1 ≠ "toggles" := fun kv' hm => h kv' (by simp [hm])
    have hstep : specStep st kv = dictSet st kv.1 kv.2 := by
      simp [specStep, h1]
    calc specMerge st (kv :: tail) = specMerge (specStep st kv) tail := rfl
      _ = specMerge (dictSet st kv.1 kv.2) tail := by rw [hstep]
      _ = dictUpdate (dictSet st kv.1 kv.2) tail := ih _ h2
      _ = dictUpdate st (kv :: tail) := rfl

theorem mergePatch_eq_specMerge (patch : StateMap) :
    ∀ (st : StateMap) (d : Toggles),
      dictGet st "toggles" = some (.vdict d) →
      (patch.map Prod.fst).Nodup →
      mergePatch st patch = specMerge st patch := by
  induction patch with
  | nil => intro st d _ _; rfl
  | cons kv rest ih =>
    intro st d hd hnd
    obtain ⟨k, v⟩ := kv
    have hndr : (rest.map Prod.fst).Nodup := (List.nodup_cons.mp hnd).2
    by_cases hk : k = "toggles"
    · subst hk
      have hmem : "toggles" ∉ rest.map Prod.fst := (List.nodup_cons.mp hnd).1
      have hrest : ∀ kv' ∈ rest, kv'.1 ≠ "toggles" := by
        intro kv' hm heq
        exact hmem (heq ▸ List.mem_map_of_mem Prod.fst hm)
      have hrem : removeKey (("toggles", v) :: rest) "toggles" = rest := by
        have : removeKey (("toggles", v) :: rest) "toggles" = removeKey rest "toggles" := by
          simp [removeKey, List.filter_cons]
        rw [this, removeKey_eq_of_not_mem rest "toggles" hrest]
      have hget : dictGet (("toggles", v) :: rest) "toggles" = some v := by
        simp [dictGet]
      have hup : dictGet (dictUpdate st rest) "toggles" = some (.vdict d) := by
        rw [dictGet_dictUpdate_not_mem st rest "toggles" hrest, hd]
      cases v with
      | vdict tp =>
        have hl : mergePatch st (("toggles", .vdict tp) :: rest)
            = dictSet (dictUpdate st rest) "toggles" (.vdict (dictUpdate d tp)) := by
          simp only [mergePatch, hget, hrem, hup]
        have hstep : specStep st ("toggles", .vdict tp)
            = dictSet st "toggles" (.vdict (dictUpdate d tp)) := by
          simp [specStep, hd]
        have hr : specMerge st (("toggles", .vdict tp) :: rest)
            = dictUpdate (dictSet st "toggles" (.vdict (dictUpdate d tp))) rest := by
          calc specMerge st (("toggles", .vdict tp) :: rest)
              = specMerge (specStep st ("toggles", .vdict tp)) rest := rfl
            _ = dictUpdate (dictSet st "toggles" (.vdict (dictUpdate d tp))) rest := by
                rw [hstep]
                exact specMerge_no_toggles rest _ hrest
        rw [hl, hr]
        exact (dictUpdate_dictSet st rest "toggles" (.vdict (dictUpdate d tp))
          (by simp [hasKey, hd]) hrest).symm
      | prim p =>
        have hl : mergePatch st (("toggles", .prim p) :: rest) = dictUpdate st rest := by
          unfold mergePatch
          rw [hget, hrem]
        have hstep : specStep st ("toggles", .prim p) = st := by
          simp [specStep]
        have hr : specMerge st (("toggles", .prim p) :: rest) = dictUpdate st rest := by
          calc specMerge st (("toggles", .prim p) :: rest)
              = specMerge (specStep st ("toggles", .prim p)) rest := rfl
            _ = specMerge st rest := by rw [hstep]
            _ = dictUpdate st rest := specMerge_no_toggles rest st hrest
        rw [hl, hr]
    · have hl : mergePatch st ((k, v) :: rest) = mergePatch (dictSet st k v) rest :=
        mergePatch_cons_ne st rest k v hk
      have hstep : specStep st (k, v) = dictSet st k v := by
        simp [specStep, hk]
      have hr : specMerge st ((k, v) :: rest) = specMerge (dictSet st k v) rest := by
        calc specMerge st ((k, v) :: rest) = specMerge (specStep st (k, v)) rest := rfl
          _ = specMerge (dictSet st k v) rest := by rw [hstep]
      have hd' : dictGet (dictSet st k v) "toggles" = some (.vdict d) := by
        rw [dictGet_dictSet_ne st "toggles" k v hk, hd]
      rw [hl, hr]
      exact ih (dictSet st k v) d hd' hndr

theorem toggles_dict_after_mergePatch (st patch : StateMap) (d : Toggles)
    (hd : dictGet st "toggles" = some (.vdict d)) :
    ∃ d₂ : Toggles, dictGet (mergePatch st patch) "toggles" = some (.vdict d₂) := by
  unfold mergePatch
  have hnm : ∀ kv ∈ removeKey patch "toggles", kv.1 ≠ "toggles" :=
    mem_removeKey_ne patch "toggles"
  have hup : dictGet (dictUpdate st (removeKey patch "toggles")) "toggles"
      = some (.vdict d) := by
    rw [dictGet_dictUpdate_not_mem st _ "toggles" hnm, hd]
  cases htp : dictGet patch "toggles" with
  | none => exact ⟨d, hup⟩
  | some v =>
    cases v with
    | prim p => exact ⟨d, hup⟩
    | vdict tp =>
      refine ⟨dictUpdate d tp, ?_⟩
      simp only [mergePatch, htp, hup]
      exact dictGet_dictSet_self _ _ _

theorem toggles_dict_after_applyPatch (st patch : StateMap) (now : Nat) (d : Toggles)
    (hd : dictGet st "toggles" = some (.vdict d)) :
    ∃ d₂ : Toggles, dictGet (applyPatch st patch now) "toggles" = some (.vdict d₂) := by
  obtain ⟨d₂, h⟩ := toggles_dict_after_mergePatch st patch d hd
  refine ⟨d₂, ?_⟩
  unfold applyPatch
  rw [dictGet_stampLastTalk_ne _ now "toggles" (by decide), h]

theorem foldl_applyPatch_eq_spec (patches : List StateMap) (now : Nat) :
    ∀ (st : StateMap) (d : Toggles),
      dictGet st "toggles" = some (.vdict d) →
      (∀ p ∈ patches, (p.map Prod.fst).Nodup) →
      patches.foldl (fun st p => applyPatch st p now) st
        = patches.foldl (fun st p => stampLastTalk (specMerge st p) now) st := by
  induction patches with
  | nil => intro st d _ _; rfl
  | cons p ps ih =>
    intro st d hd hnd
    have hp : (p.map Prod.fst).Nodup := hnd p (by simp)
    have hps : ∀ p' ∈ ps, (p'.map Prod.fst).Nodup := fun p' hm => hnd p' (by simp [hm])
    have hstep : applyPatch st p now = stampLastTalk (specMerge st p) now := by
      unfold applyPatch
      rw [mergePatch_eq_specMerge p st d hd hp]
    obtain ⟨d₂, hd₂⟩ := toggles_dict_after_applyPatch st p now d hd
    calc (p :: ps).foldl (fun st p => applyPatch st p now) st
        = ps.foldl (fun st p => applyPatch st p now) (applyPatch st p now) := rfl
      _ = ps.foldl (fun st p => stampLastTalk (specMerge st p) now) (applyPatch st p now) :=
          ih (applyPatch st p now) d₂ hd₂ hps
      _ = ps.foldl (fun st p => stampLastTalk (specMerge st p) now)
            (stampLastTalk (specMerge st p) now) := by rw [hstep]
      _ = (p :: ps).foldl (fun st p => stampLastTalk (specMerge st p) now) st := rfl

end Echo

namespace Echo

/-- C3: the claim says every `update(patch)` only merges patch keys (with
`toggles` merged key-by-key) and that keys not mentioned in any patch are
unchanged.  Shown false at a concrete input: `update({"state": "talking"})`
at time 5 from the default state differs from the pure key-wise merge — the
unmentioned `last_talk` key, present as `0.0`, is overwritten with the
current time by the stamp in `StateService.update`. -/
theorem update_pure_merge_cex :
    applyPatch DEFAULT_STATE [("state", .prim (.pstr "talking"))] 5
      ≠ specMerge DEFAULT_STATE [("state", .prim (.pstr "talking"))] ∧
    dictGet (specMerge DEFAULT_STATE [("state", .prim (.pstr "talking"))]) "last_talk"
      = some (.prim (.pnum 0)) ∧
    dictGet (applyPatch DEFAULT_STATE [("state", .prim (.pstr "talking"))] 5) "last_talk"
      = some (.prim (.pnum 5)) := by
  decide

/-- C3 (amended): for every sequence of `update(patch)` calls from the
default state (patches being well-formed dicts, i.e. without duplicate
keys), the resulting snapshot is the initial state with every patch merged
key-wise in order — a `toggles` sub-mapping merged key-by-key into the
existing `toggles` map rather than replacing it — each merge followed by
the `last_talk` stamp: when a merge yields `state == "talking"` with a
falsy `last_talk`, that key is additionally set to the current time; all
other keys not mentioned in any patch are unchanged.  In particular the
spec's example holds: updating `{"toggles": {"a": true}}` and then
`{"toggles": {"b": true}}` yields `toggles == {"a": true, "b": true}`. -/
theorem update_is_keywise_merge_with_stamp (patches : List StateMap) (now : Nat)
    (hnd : ∀ p ∈ patches, (p.map Prod.fst).Nodup) :
    patches.foldl (fun st p => applyPatch st p now) DEFAULT_STATE
      = patches.foldl (fun st p => stampLastTalk (specMerge st p) now) DEFAULT_STATE ∧
    dictGet (applyPatch (applyPatch DEFAULT_STATE
        [("toggles", .vdict [("a", .pbool true)])] 1)
        [("toggles", .vdict [("b", .pbool true)])] 2) "toggles"
      = some (.vdict [("a", .pbool true), ("b", .pbool true)]) := by
  constructor
  · exact foldl_applyPatch_eq_spec patches now DEFAULT_STATE [] (by decide) hnd
  · decide

/-- C3 witness: the amended merge equation at a concrete patch sequence —
two toggles patches and a state patch — together with the spec's toggles
example. -/
theorem update_is_keywise_merge_with_stamp_witness :
    ([[("toggles", .vdict [("a", .pbool true)])],
      [("state", .prim (.pstr "talking"))],
      [("toggles", .vdict [("b", .pbool true)]), ("mode", .prim (.pstr "day"))]]
        : List StateMap).foldl (fun st p => applyPatch st p 4) DEFAULT_STATE
      = ([[("toggles", .vdict [("a", .pbool true)])],
          [("state", .prim (.pstr "talking"))],
          [("toggles", .vdict [("b", .pbool true)]), ("mode", .prim (.pstr "day"))]]
            : List StateMap).foldl (fun st p => stampLastTalk (specMerge st p) 4) DEFAULT_STATE ∧
    dictGet (applyPatch (applyPatch DEFAULT_STATE
        [("toggles", .vdict [("a", .pbool true)])] 1)
        [("toggles", .vdict [("b", .pbool true)])] 2) "toggles"
      = some (.vdict [("a", .pbool true), ("b", .pbool true)]) :=
  update_is_keywise_merge_with_stamp
    [[("toggles", .vdict [("a", .pbool true)])],
     [("state", .prim (.pstr "talking"))],
     [("toggles", .vdict [("b", .pbool true)]), ("mode", .prim (.pstr "day"))]]
    4 (by decide)

end Echo
